import Mathlib

/-!
# R2 bucket binding: object-metadata parsing

A shallow embedding of `src/workerd/api/r2-bucket.h` (namespace
`workerd::api::public_beta`): the result types `HeadResult` / `GetResult`, the
generic `parseObjectMetadata` template that turns a wire-level `R2HeadResponse`
into a typed result, the overload of `parseObjectMetadata` that first inspects
the outcome carried by an `R2Result`, and the single-consumption body accessors
of `GetResult`.

Conventions of the embedding:

* `jsg::Optional<T>` / `kj::Maybe<T>` are `Option T`;
* a Cap'n Proto pointer field (text, data, struct, list) is an `Option`: `hasX()`
  is `isSome`, and `getX()` is read only under `hasX()`;
* unsigned 64-bit wire integers are natural numbers (well-formed below `2^64`),
  with the wrap-around written out where the C++ arithmetic can overflow;
* a C++ exception (a failed `KJ_ASSERT_NONNULL`, the failure raised by
  `throwIfError`, a codec failure) is the `error` side of `Except Failure`.
-/

namespace PublicBeta

/-! ## Scalars -/

/-- Raw bytes (`kj::Array<kj::byte>`, Cap'n Proto `Data`). -/
abbrev Bytes := List (Fin 256)

/-- The type `kj::Date`: an absolute time held as a signed 64-bit count of
nanoseconds since the Unix epoch (`kj::Absolute<kj::Duration, ...>` with
`kj::Duration = kj::Quantity<int64_t, NanosecondLabel>`). -/
structure Date where
  nanos : Int
deriving DecidableEq, Repr

/-- The constant `kj::UNIX_EPOCH`. -/
def UNIX_EPOCH : Date := ⟨0⟩

/-- The constant `kj::MILLISECONDS`: one millisecond, as a count of nanoseconds. -/
def MILLISECONDS : Nat := 1000000

/-- Conversion of an unsigned 64-bit value to `int64_t` (two's complement). -/
def toInt64 (n : Nat) : Int :=
  if n % 2 ^ 64 < 2 ^ 63 then ((n % 2 ^ 64 : Nat) : Int) else ((n % 2 ^ 64 : Nat) : Int) - 2 ^ 64

/-- The expression `kj::UNIX_EPOCH + ms * kj::MILLISECONDS` for a `uint64_t ms`.
The product `uint64_t * int64_t` is computed in `uint64_t` (modulo `2^64`), the
resulting quantity is converted to the signed `kj::Duration`, and is then added
to the epoch (whose own count is zero). -/
def dateFromMillis (ms : Nat) : Date :=
  ⟨UNIX_EPOCH.nanos + toInt64 ((ms * MILLISECONDS) % 2 ^ 64)⟩

/-- The number of low bits a 64-bit unsigned `n` loses when it is squeezed into a
53-bit significand: the least `e` from `e` on with `n / 2 ^ e < 2 ^ 53`, searched
for at most `fuel` steps (eleven are enough below `2 ^ 64`). -/
def droppedBits : Nat → Nat → Nat → Nat
  | 0, _, e => e
  | fuel + 1, n, e => if n / 2 ^ e < 2 ^ 53 then e else droppedBits fuel n (e + 1)

/-- The conversion `static_cast<double>(n)` of a `uint64_t`: the value of the
nearest IEEE-754 binary64 number (53-bit significand, ties to even). The result
of the cast is always integral, so it is given as a natural number. -/
def u64ToDouble (n : Nat) : Nat :=
  if n < 2 ^ 53 then n
  else
    let e := droppedBits 11 n 0
    let q := n / 2 ^ e
    let r := n % 2 ^ e
    let half := 2 ^ (e - 1)
    let q := if half < r ∨ (r = half ∧ q % 2 = 1) then q + 1 else q
    q * 2 ^ e

/-! ## Wire records (`r2-api.capnp`) -/

/-- Modelled from the spec: the Cap'n Proto struct behind
`R2HeadResponse::getHttpFields()`; `r2-api.capnp.h` is not among the sources, so
the fields are the accessors `r2-bucket.h` calls on it. The five text fields are
pointer fields (`hasX()`); the cache expiry is a plain 64-bit unsigned integer in
milliseconds since the epoch, with all bits set meaning that none is recorded. -/
structure R2HttpFields where
  contentType : Option String := none
  contentDisposition : Option String := none
  contentEncoding : Option String := none
  contentLanguage : Option String := none
  cacheControl : Option String := none
  cacheExpiry : Nat := 0xffffffffffffffff
deriving DecidableEq, Repr

/-- Modelled from the spec: one entry of `R2HeadResponse::getCustomFields()`
(`getK()`, `getV()`); `r2-api.capnp.h` is not among the sources. -/
structure Record where
  k : String
  v : String
deriving DecidableEq, Repr

/-- Modelled from the spec: the struct behind `R2HeadResponse::getRange()`
(`getOffset()`, `getLength()`, both `uint64_t`); `r2-api.capnp.h` is not among
the sources. -/
structure R2Range where
  offset : Nat
  length : Nat
deriving DecidableEq, Repr

/-- Modelled from the spec: the struct `R2Checksums` of `r2-api.capnp.h` (not
among the sources): five independent optional digests, raw bytes each. -/
structure R2Checksums where
  md5 : Option Bytes := none
  sha1 : Option Bytes := none
  sha256 : Option Bytes := none
  sha384 : Option Bytes := none
  sha512 : Option Bytes := none
deriving DecidableEq, Repr

/-- Modelled from the spec: the wire-format response record `R2HeadResponse` of
`r2-api.capnp.h` (not among the sources), with the fields that
`parseObjectMetadata` reads; the four sub-blocks are optional. -/
structure R2HeadResponse where
  name : String := ""
  version : String := ""
  size : Nat := 0
  etag : String := ""
  uploadedMillisecondsSinceEpoch : Nat := 0
  httpFields : Option R2HttpFields := none
  customFields : Option (List Record) := none
  range : Option R2Range := none
  checksums : Option R2Checksums := none
deriving DecidableEq, Repr

/-! ## Result types (`class R2Bucket`) -/

namespace R2Bucket

/-- The struct `R2Bucket::Range`; a `double` written by the parser is always the
image of a `uint64_t`, hence integral. -/
structure Range where
  offset : Option Nat := none
  length : Option Nat := none
  suffix : Option Nat := none
deriving DecidableEq, Repr

/-- The struct `R2Bucket::Checksums`. -/
structure Checksums where
  md5 : Option Bytes := none
  sha1 : Option Bytes := none
  sha256 : Option Bytes := none
  sha384 : Option Bytes := none
  sha512 : Option Bytes := none
deriving DecidableEq, Repr

/-- The struct `R2Bucket::HttpMetadata`. -/
structure HttpMetadata where
  contentType : Option String := none
  contentLanguage : Option String := none
  contentDisposition : Option String := none
  contentEncoding : Option String := none
  cacheControl : Option String := none
  cacheExpiry : Option Date := none
deriving DecidableEq, Repr

end R2Bucket

/-- One entry `jsg::Dict<kj::String>::Field`. -/
structure DictField where
  name : String
  value : String
deriving DecidableEq, Repr

/-- The type `jsg::Dict<kj::String>`: an ordered sequence of name/value entries. -/
structure Dict where
  fields : List DictField := []
deriving DecidableEq, Repr

/-- Modelled from the spec: the body stream (`ReadableStream`, declared outside
`r2-bucket.h`): a single-consumption readable byte stream, of which this header
uses `isDisturbed()`. -/
structure ReadableStream where
  data : Bytes := []
  disturbed : Bool := false
deriving DecidableEq, Repr

/-- Which `KJ_ASSERT_NONNULL` failed: one of the two in the `GetResult`
constructor (their relative evaluation order is unspecified), or the one on
`r2Result.metadataPayload`. -/
inductive AssertSite where
  | getResultMetadata
  | metadataPayload
deriving DecidableEq, Repr

/-- Modelled from the spec: the backend error `R2Error` of `r2-rpc.h` (not among
the sources): a code and a message. -/
structure R2Error where
  v4Code : Nat
  message : String
deriving DecidableEq, Repr

/-- The exceptions the embedded code can leave with. -/
inductive Failure where
  | assertNonNull (site : AssertSite)
  | r2Error (action : String) (e : R2Error)
  | codec (msg : String)
  | bodyUsed
deriving DecidableEq, Repr

namespace R2Bucket

/-- The class `R2Bucket::HeadResult` (its data members). -/
structure HeadResult where
  name : String
  version : String
  size : Nat
  etag : String
  checksums : Checksums
  uploaded : Date
  httpMetadata : Option HttpMetadata
  customMetadata : Option Dict
  range : Option Range
deriving DecidableEq, Repr

/-- The constructor of `HeadResult`: plain member initialisation. -/
def HeadResult.new (name version : String) (size : Nat) (etag : String)
    (checksums : Checksums) (uploaded : Date) (httpMetadata : Option HttpMetadata)
    (customMetadata : Option Dict) (range : Option Range) : HeadResult :=
  { name := name, version := version, size := size, etag := etag, checksums := checksums,
    uploaded := uploaded, httpMetadata := httpMetadata, customMetadata := customMetadata,
    range := range }

/-- The accessor `HeadResult::getEtag`. -/
def HeadResult.getEtag (self : HeadResult) : String := self.etag

/-- The accessor `HeadResult::getHttpEtag`: `kj::str('"', etag, '"')`. -/
def HeadResult.getHttpEtag (self : HeadResult) : String :=
  String.singleton '"' ++ self.etag ++ String.singleton '"'

/-- The class `R2Bucket::GetResult`: a `HeadResult` with a body stream. -/
structure GetResult extends HeadResult where
  body : ReadableStream
deriving DecidableEq, Repr

/-- The constructor of `GetResult`: both optional metadata arguments go through
`KJ_ASSERT_NONNULL` before they reach the `HeadResult` constructor. -/
def GetResult.new (name version : String) (size : Nat) (etag : String)
    (checksums : Checksums) (uploaded : Date) (httpMetadata : Option HttpMetadata)
    (customMetadata : Option Dict) (range : Option Range) (body : ReadableStream) :
    Except Failure GetResult :=
  match httpMetadata, customMetadata with
  | some hm, some cm =>
    .ok { toHeadResult :=
            HeadResult.new name version size etag checksums uploaded (some hm) (some cm) range,
          body := body }
  | _, _ => .error (.assertNonNull .getResultMetadata)

/-- The accessor `GetResult::getBodyUsed`. -/
def GetResult.getBodyUsed (self : GetResult) : Bool := self.body.disturbed

end R2Bucket

open R2Bucket

/-- The enumeration `OptionalMetadata`. -/
inductive OptionalMetadata where
  | Http
  | Custom
deriving DecidableEq, Repr

/-- The template parameter `T` of `parseObjectMetadata` together with the extra
constructor arguments `Args...`: none for `HeadResult`, the body for `GetResult`. -/
inductive ResultT where
  | Head
  | Get (body : ReadableStream)
deriving DecidableEq, Repr

/-- A `jsg::Ref<T>` for `T` one of the two result classes. -/
inductive ObjectRef where
  | head (h : HeadResult)
  | get (g : GetResult)
deriving DecidableEq, Repr

/-- The `HeadResult` part of a result (`GetResult` derives from `HeadResult`). -/
def ObjectRef.toHead : ObjectRef → HeadResult
  | .head h => h
  | .get g => g.toHeadResult

/-- The call `jsg::alloc<T>(..., args...)`: runs the constructor of `T`. -/
def alloc (T : ResultT) (name version : String) (size : Nat) (etag : String)
    (checksums : Checksums) (uploaded : Date) (httpMetadata : Option HttpMetadata)
    (customMetadata : Option Dict) (range : Option Range) : Except Failure ObjectRef :=
  match T with
  | .Head =>
    .ok (.head (HeadResult.new name version size etag checksums uploaded httpMetadata
      customMetadata range))
  | .Get body =>
    match GetResult.new name version size etag checksums uploaded httpMetadata
      customMetadata range body with
    | .ok g => .ok (.get g)
    | .error f => .error f

/-! ## The generic parser -/

/-- The HTTP block of `parseObjectMetadata` (lines 313 to 343): a block on the
wire is copied field by field, each text field only when it is there and the
cache expiry unless it is the all-bits-set value; without a block on the wire an
empty struct is made when `OptionalMetadata::Http` is among the expected fields. -/
def parseHttpMetadata (responseReader : R2HeadResponse)
    (expectedOptionalFields : List OptionalMetadata) : Option HttpMetadata :=
  match responseReader.httpFields with
  | some httpFields =>
    let m : HttpMetadata := {}
    let m := match httpFields.contentType with
      | some s => { m with contentType := some s }
      | none => m
    let m := match httpFields.contentDisposition with
      | some s => { m with contentDisposition := some s }
      | none => m
    let m := match httpFields.contentEncoding with
      | some s => { m with contentEncoding := some s }
      | none => m
    let m := match httpFields.contentLanguage with
      | some s => { m with contentLanguage := some s }
      | none => m
    let m := match httpFields.cacheControl with
      | some s => { m with cacheControl := some s }
      | none => m
    let m := if httpFields.cacheExpiry ≠ 0xffffffffffffffff then
        { m with cacheExpiry := some (dateFromMillis httpFields.cacheExpiry) }
      else m
    some m
  | none =>
    if expectedOptionalFields.contains OptionalMetadata.Http then
      -- HTTP metadata was asked for but the object didn't have anything.
      some {}
    else none

/-- The custom-metadata block of `parseObjectMetadata` (lines 345 to 359). -/
def parseCustomMetadata (responseReader : R2HeadResponse)
    (expectedOptionalFields : List OptionalMetadata) : Option Dict :=
  match responseReader.customFields with
  | some customFields =>
    some { fields := customFields.map fun field => { name := field.k, value := field.v } }
  | none =>
    if expectedOptionalFields.contains OptionalMetadata.Custom then
      -- Custom metadata was asked for but the object didn't have anything.
      some {}
    else none

/-- The range block of `parseObjectMetadata` (lines 361 to 369). -/
def parseRange (responseReader : R2HeadResponse) : Option Range :=
  match responseReader.range with
  | some rangeBuilder =>
    some { offset := some (u64ToDouble rangeBuilder.offset),
           length := some (u64ToDouble rangeBuilder.length) }
  | none => none

/-- The checksum block of `parseObjectMetadata` (lines 371 to 390). -/
def parseChecksums (responseReader : R2HeadResponse) : Checksums :=
  let checksums : Checksums := {}
  match responseReader.checksums with
  | some checksumsBuilder =>
    let checksums := match checksumsBuilder.md5 with
      | some b => { checksums with md5 := some b }
      | none => checksums
    let checksums := match checksumsBuilder.sha1 with
      | some b => { checksums with sha1 := some b }
      | none => checksums
    let checksums := match checksumsBuilder.sha256 with
      | some b => { checksums with sha256 := some b }
      | none => checksums
    let checksums := match checksumsBuilder.sha384 with
      | some b => { checksums with sha384 := some b }
      | none => checksums
    let checksums := match checksumsBuilder.sha512 with
      | some b => { checksums with sha512 := some b }
      | none => checksums
    checksums
  | none => checksums

/-- The generic `parseObjectMetadata<T>(responseReader, expectedOptionalFields,
args...)` (lines 305 to 396). -/
def parseObjectMetadata (T : ResultT) (responseReader : R2HeadResponse)
    (expectedOptionalFields : List OptionalMetadata) : Except Failure ObjectRef :=
  let uploaded := dateFromMillis responseReader.uploadedMillisecondsSinceEpoch
  let httpMetadata := parseHttpMetadata responseReader expectedOptionalFields
  let customMetadata := parseCustomMetadata responseReader expectedOptionalFields
  let range := parseRange responseReader
  let checksums := parseChecksums responseReader
  alloc T responseReader.name responseReader.version (u64ToDouble responseReader.size)
    responseReader.etag checksums uploaded httpMetadata customMetadata range

/-! ## The outcome-checking overload -/

/-- Modelled from the spec: the RPC outcome `R2Result` of `r2-rpc.h` (not among
the sources). `objectNotFound` and `preconditionFailed` are the answers of the
two methods of those names, `toThrow` the backend error it carries (if any) and
`metadataPayload` the encoded metadata (if any); nothing ties the four together. -/
structure R2Result where
  objectNotFound : Bool := false
  preconditionFailed : Bool := false
  toThrow : Option R2Error := none
  metadataPayload : Option String := none
deriving DecidableEq, Repr

/-- Modelled from the spec: `R2Result::throwIfError` of `r2-rpc.h` (not among the
sources): an error outcome is propagated as a typed failure with the name of the
originating action attached; without an error the call returns normally. -/
def throwIfError (action : String) (r2Result : R2Result) : Except Failure Unit :=
  match r2Result.toThrow with
  | some e => .error (.r2Error action e)
  | none => .ok ()

/-- The overload `parseObjectMetadata<T>(action, r2Result, errorType, args...)`
(lines 398 to 422). The two collaborators that live outside this header are
arguments: `throwIfErr` stands for `R2Result::throwIfError` and `decode` for the
JSON codec filling an `R2HeadResponse` from the payload (which may itself fail). -/
def parseObjectMetadataR2Result
    (throwIfErr : String → R2Result → Except Failure Unit)
    (decode : String → Except Failure R2HeadResponse)
    (T : ResultT) (action : String) (r2Result : R2Result) :
    Except Failure (Option ObjectRef) :=
  if r2Result.objectNotFound then .ok none
  else
    match (if !r2Result.preconditionFailed then throwIfErr action r2Result else .ok ()) with
    | .error f => .error f
    | .ok _ =>
      -- Non-list operations always return these.
      let expectedFields := [OptionalMetadata.Http, OptionalMetadata.Custom]
      match r2Result.metadataPayload with
      | none => .error (.assertNonNull .metadataPayload)
      | some payload =>
        match decode payload with
        | .error f => .error f
        | .ok responseBuilder =>
          match parseObjectMetadata T responseBuilder expectedFields with
          | .error f => .error f
          | .ok ref => .ok (some ref)

/-! ## Body accessors of `GetResult` -/

/-- The four body accessors that `GetResult` declares (lines 205 to 208). -/
inductive BodyAccessor where
  | arrayBuffer
  | text
  | json
  | blob
deriving DecidableEq, Repr

/-- Modelled from the spec: what a body accessor resolves to. Turning the bytes
into text, structured data or a blob is the business of the body stream
abstraction, outside `r2-bucket.h`; the value keeps the bytes that were read and
the form that was asked for. -/
structure BodyValue where
  form : BodyAccessor
  bytes : Bytes
deriving DecidableEq, Repr

/-- Modelled from the spec: a read of the whole stream by whoever holds a
reference to it (the stream class is outside `r2-bucket.h`). The stream is
single-consumption: on a stream that has been read the call fails, reporting it
as already used; otherwise it hands out the bytes and the stream is disturbed
from then on. -/
def ReadableStream.readAll (s : ReadableStream) : Except Failure (Bytes × ReadableStream) :=
  if s.disturbed then .error .bodyUsed
  else .ok (s.data, { data := [], disturbed := true })

namespace R2Bucket

/-- The accessor `GetResult::getBody` (lines 197 to 199): `body.addRef()`, one
more reference to the stream the instance holds. -/
def GetResult.getBody (self : GetResult) : ReadableStream := self.body

/-- A read by the caller through the reference that `getBody` hands out. The
reference is to the very stream the instance holds, so the instance has the
stream as the read leaves it. -/
def GetResult.readThroughBody (self : GetResult) : Except Failure (Bytes × GetResult) :=
  match self.getBody.readAll with
  | .error f => .error f
  | .ok (bytes, s) => .ok (bytes, { self with body := s })

/-- Modelled from the spec: the common body of the four accessors, which
`r2-bucket.h` only declares (`r2-bucket.c++` is not among the sources): a read of
the whole body stream, whose bytes are handed out in the form asked for. -/
def GetResult.readBody (self : GetResult) (form : BodyAccessor) :
    Except Failure (BodyValue × GetResult) :=
  match self.body.readAll with
  | .error f => .error f
  | .ok (bytes, s) => .ok ({ form := form, bytes := bytes }, { self with body := s })

/-- Modelled from the spec: `GetResult::arrayBuffer`, declared in `r2-bucket.h`
and defined outside the sources: the body as raw bytes, at most once. -/
def GetResult.arrayBuffer (self : GetResult) : Except Failure (BodyValue × GetResult) :=
  self.readBody .arrayBuffer

/-- Modelled from the spec: `GetResult::text`, declared in `r2-bucket.h` and
defined outside the sources: the body as text, at most once. -/
def GetResult.text (self : GetResult) : Except Failure (BodyValue × GetResult) :=
  self.readBody .text

/-- Modelled from the spec: `GetResult::json`, declared in `r2-bucket.h` and
defined outside the sources: the body as parsed structured data, at most once. -/
def GetResult.json (self : GetResult) : Except Failure (BodyValue × GetResult) :=
  self.readBody .json

/-- Modelled from the spec: `GetResult::blob`, declared in `r2-bucket.h` and
defined outside the sources: the body as a blob, at most once. -/
def GetResult.blob (self : GetResult) : Except Failure (BodyValue × GetResult) :=
  self.readBody .blob

/-- One call of the named accessor on the instance. -/
def GetResult.call (self : GetResult) : BodyAccessor → Except Failure (BodyValue × GetResult)
  | .arrayBuffer => self.arrayBuffer
  | .text => self.text
  | .json => self.json
  | .blob => self.blob

/-- A sequence of accessor calls on one instance, in order: whether each call
succeeded, and the instance as the calls leave it (a failed call leaves it as it
was). -/
def GetResult.callAll : GetResult → List BodyAccessor → List Bool × GetResult
  | g, [] => ([], g)
  | g, a :: rest =>
    match g.call a with
    | .ok (_, g1) => (true :: (GetResult.callAll g1 rest).1, (GetResult.callAll g1 rest).2)
    | .error _ => (false :: (GetResult.callAll g rest).1, (GetResult.callAll g rest).2)

end R2Bucket

/-! ## Shared lemmas -/

/-- For the `HeadResult` shape the generic parser always returns, and the result
is made of the five parsed blocks. -/
theorem parseObjectMetadata_Head (R : R2HeadResponse) (E : List OptionalMetadata) :
    parseObjectMetadata .Head R E =
      .ok (.head (HeadResult.new R.name R.version (u64ToDouble R.size) R.etag
        (parseChecksums R) (dateFromMillis R.uploadedMillisecondsSinceEpoch)
        (parseHttpMetadata R E) (parseCustomMetadata R E) (parseRange R))) := rfl

/-- Whatever the shape, a result of the generic parser carries the five parsed
blocks in its `HeadResult` part. -/
theorem parseObjectMetadata_toHead {T : ResultT} {R : R2HeadResponse}
    {E : List OptionalMetadata} {ref : ObjectRef}
    (h : parseObjectMetadata T R E = .ok ref) :
    ref.toHead = HeadResult.new R.name R.version (u64ToDouble R.size) R.etag
        (parseChecksums R) (dateFromMillis R.uploadedMillisecondsSinceEpoch)
        (parseHttpMetadata R E) (parseCustomMetadata R E) (parseRange R) := by
  cases T with
  | Head =>
    rw [parseObjectMetadata_Head] at h
    cases h
    rfl
  | Get body =>
    simp only [parseObjectMetadata, alloc, GetResult.new] at h
    cases hh : parseHttpMetadata R E <;> cases hc : parseCustomMetadata R E <;>
      simp only [hh, hc] at h <;> cases h
    rfl

/-- The HTTP block when the wire record has none. -/
theorem parseHttpMetadata_absent {R : R2HeadResponse} (E : List OptionalMetadata)
    (h : R.httpFields = none) :
    parseHttpMetadata R E = if OptionalMetadata.Http ∈ E then some {} else none := by
  simp [parseHttpMetadata, h]

/-- The custom-metadata block when the wire record has none. -/
theorem parseCustomMetadata_absent {R : R2HeadResponse} (E : List OptionalMetadata)
    (h : R.customFields = none) :
    parseCustomMetadata R E = if OptionalMetadata.Custom ∈ E then some {} else none := by
  simp [parseCustomMetadata, h]

/-- The HTTP block when the wire record has one: the expected fields play no
part. -/
theorem parseHttpMetadata_present {R : R2HeadResponse} (E : List OptionalMetadata)
    {hf : R2HttpFields} (h : R.httpFields = some hf) :
    parseHttpMetadata R E = some
      { contentType := hf.contentType, contentLanguage := hf.contentLanguage,
        contentDisposition := hf.contentDisposition, contentEncoding := hf.contentEncoding,
        cacheControl := hf.cacheControl,
        cacheExpiry := if hf.cacheExpiry = 0xffffffffffffffff then none
                       else some (dateFromMillis hf.cacheExpiry) } := by
  obtain ⟨ct, cd, ce, cl, cc, cx⟩ := hf
  simp only [parseHttpMetadata, h]
  cases ct <;> cases cd <;> cases ce <;> cases cl <;> cases cc <;>
    by_cases hx : cx = 0xffffffffffffffff <;> simp [hx]

/-- The custom-metadata block when the wire record has one. -/
theorem parseCustomMetadata_present {R : R2HeadResponse} (E : List OptionalMetadata)
    {cf : List Record} (h : R.customFields = some cf) :
    parseCustomMetadata R E =
      some { fields := cf.map fun field => { name := field.k, value := field.v } } := by
  simp [parseCustomMetadata, h]

/-- Zero milliseconds is the epoch itself. -/
theorem dateFromMillis_zero : dateFromMillis 0 = UNIX_EPOCH := by
  simp [dateFromMillis, UNIX_EPOCH, toInt64]

/-! ## Optional-field presence (C1, C2, C3, C8) -/

/-- C1: for every wire response and every list of expected categories, the
`HeadResult` built by the generic parser has no `httpMetadata` when the response
has no `httpFields` block and `Http` is not expected, and no `customMetadata`
when the response has no `customFields` block and `Custom` is not expected; a
result of the other shape, when one is returned, has the same `HeadResult` part. -/
theorem absent_and_not_expected_is_absent (R : R2HeadResponse)
    (E : List OptionalMetadata) :
    ∃ h : HeadResult, parseObjectMetadata .Head R E = .ok (.head h) ∧
      (R.httpFields = none → OptionalMetadata.Http ∉ E → h.httpMetadata = none) ∧
      (R.customFields = none → OptionalMetadata.Custom ∉ E → h.customMetadata = none) ∧
      (∀ (T : ResultT) (ref : ObjectRef), parseObjectMetadata T R E = .ok ref →
        ref.toHead = h) := by
  refine ⟨_, parseObjectMetadata_Head R E, ?_, ?_, fun T ref hp => parseObjectMetadata_toHead hp⟩
  · intro hb hn
    simp [HeadResult.new, parseHttpMetadata_absent E hb, hn]
  · intro hb hn
    simp [HeadResult.new, parseCustomMetadata_absent E hb, hn]

/-- C2: for every wire response and every list of expected categories, a block
missing from the response whose category is expected is materialised empty: the
`HeadResult` has an `httpMetadata` with all six sub-fields absent, respectively a
`customMetadata` with zero entries; and the same holds of the `HeadResult` part
of any result the parser returns, whatever the result shape. -/
theorem absent_and_expected_is_empty (R : R2HeadResponse) (E : List OptionalMetadata) :
    (∃ h : HeadResult, parseObjectMetadata .Head R E = .ok (.head h) ∧
      (R.httpFields = none → OptionalMetadata.Http ∈ E →
        h.httpMetadata = some
          { contentType := none, contentLanguage := none, contentDisposition := none,
            contentEncoding := none, cacheControl := none, cacheExpiry := none }) ∧
      (R.customFields = none → OptionalMetadata.Custom ∈ E →
        h.customMetadata = some { fields := [] })) ∧
    (∀ (T : ResultT) (ref : ObjectRef), parseObjectMetadata T R E = .ok ref →
      (R.httpFields = none → OptionalMetadata.Http ∈ E →
        ref.toHead.httpMetadata = some
          { contentType := none, contentLanguage := none, contentDisposition := none,
            contentEncoding := none, cacheControl := none, cacheExpiry := none }) ∧
      (R.customFields = none → OptionalMetadata.Custom ∈ E →
        ref.toHead.customMetadata = some { fields := [] })) := by
  refine ⟨⟨_, parseObjectMetadata_Head R E, ?_, ?_⟩, ?_⟩
  · intro hb hn
    simp [HeadResult.new, parseHttpMetadata_absent E hb, hn]
  · intro hb hn
    simp [HeadResult.new, parseCustomMetadata_absent E hb, hn]
  · intro T ref hp
    rw [parseObjectMetadata_toHead hp]
    constructor
    · intro hb hn
      simp [HeadResult.new, parseHttpMetadata_absent E hb, hn]
    · intro hb hn
      simp [HeadResult.new, parseCustomMetadata_absent E hb, hn]

/-- C3: when the wire response has an `httpFields` block, then for every list of
expected categories the result has an `httpMetadata`, whose five text sub-fields
are those of the block (present with the same value, or absent alike), and whose
`cacheExpiry` is absent exactly when the wire cache expiry is
`0xffffffffffffffff` and is otherwise the timestamp of that many milliseconds; a
wire cache expiry of zero gives a present `cacheExpiry` equal to the Unix epoch.
A result of the other shape, when one is returned, has the same `HeadResult`
part. -/
theorem present_http_block_is_copied (R : R2HeadResponse) (E : List OptionalMetadata)
    (hf : R2HttpFields) (hb : R.httpFields = some hf) :
    ∃ (h : HeadResult) (m : HttpMetadata),
      parseObjectMetadata .Head R E = .ok (.head h) ∧ h.httpMetadata = some m ∧
      m.contentType = hf.contentType ∧
      m.contentDisposition = hf.contentDisposition ∧
      m.contentEncoding = hf.contentEncoding ∧
      m.contentLanguage = hf.contentLanguage ∧
      m.cacheControl = hf.cacheControl ∧
      (m.cacheExpiry = none ↔ hf.cacheExpiry = 0xffffffffffffffff) ∧
      (hf.cacheExpiry ≠ 0xffffffffffffffff →
        m.cacheExpiry = some (dateFromMillis hf.cacheExpiry)) ∧
      (hf.cacheExpiry = 0 → m.cacheExpiry = some UNIX_EPOCH) ∧
      (∀ (T : ResultT) (ref : ObjectRef), parseObjectMetadata T R E = .ok ref →
        ref.toHead = h) := by
  refine ⟨_, _, parseObjectMetadata_Head R E, parseHttpMetadata_present E hb,
    rfl, rfl, rfl, rfl, rfl, ?_, ?_, ?_, fun T ref hp => parseObjectMetadata_toHead hp⟩
  · by_cases hx : hf.cacheExpiry = 0xffffffffffffffff <;> simp [hx]
  · intro hx
    simp [hx]
  · intro hx
    simp [hx, dateFromMillis_zero]

/-- C3 at a concrete response: a block with a content type and a cache expiry of
zero, parsed with no expected category. -/
theorem present_http_block_is_copied_witness :
    ∃ (h : HeadResult) (m : HttpMetadata),
      parseObjectMetadata .Head
        { name := "k", httpFields := some { contentType := some "text/plain", cacheExpiry := 0 } }
        [] = .ok (.head h) ∧ h.httpMetadata = some m ∧
      m.contentType = some "text/plain" ∧
      m.contentDisposition = none ∧
      m.contentEncoding = none ∧
      m.contentLanguage = none ∧
      m.cacheControl = none ∧
      (m.cacheExpiry = none ↔ (0 : Nat) = 0xffffffffffffffff) ∧
      ((0 : Nat) ≠ 0xffffffffffffffff → m.cacheExpiry = some (dateFromMillis 0)) ∧
      ((0 : Nat) = 0 → m.cacheExpiry = some UNIX_EPOCH) ∧
      (∀ (T : ResultT) (ref : ObjectRef),
        parseObjectMetadata T
          { name := "k",
            httpFields := some { contentType := some "text/plain", cacheExpiry := 0 } }
          [] = .ok ref →
        ref.toHead = h) :=
  present_http_block_is_copied
    { name := "k", httpFields := some { contentType := some "text/plain", cacheExpiry := 0 } }
    [] { contentType := some "text/plain", cacheExpiry := 0 } rfl

/-! ## Outcomes of the RPC (C4, C5, C6, C7) -/

/-- With both categories expected, the generic parser returns for either result
shape, and the result has both metadata blocks. -/
theorem parseObjectMetadata_both_expected (T : ResultT) (R : R2HeadResponse) :
    ∃ ref : ObjectRef,
      parseObjectMetadata T R [OptionalMetadata.Http, OptionalMetadata.Custom] = .ok ref ∧
      ref.toHead.httpMetadata.isSome = true ∧ ref.toHead.customMetadata.isSome = true := by
  have hh : ∃ m, parseHttpMetadata R [OptionalMetadata.Http, OptionalMetadata.Custom] = some m := by
    cases hb : R.httpFields with
    | none => exact ⟨{}, by simp [parseHttpMetadata_absent _ hb]⟩
    | some hf => exact ⟨_, parseHttpMetadata_present _ hb⟩
  have hc : ∃ d, parseCustomMetadata R [OptionalMetadata.Http, OptionalMetadata.Custom] = some d := by
    cases hb : R.customFields with
    | none => exact ⟨{}, by simp [parseCustomMetadata_absent _ hb]⟩
    | some cf => exact ⟨_, parseCustomMetadata_present _ hb⟩
  obtain ⟨m, hm⟩ := hh
  obtain ⟨d, hd⟩ := hc
  cases T with
  | Head =>
    exact ⟨_, parseObjectMetadata_Head R _, by simp [ObjectRef.toHead, HeadResult.new, hm],
      by simp [ObjectRef.toHead, HeadResult.new, hd]⟩
  | Get body =>
    refine ⟨.get ⟨HeadResult.new R.name R.version (u64ToDouble R.size) R.etag
        (parseChecksums R) (dateFromMillis R.uploadedMillisecondsSinceEpoch) (some m) (some d)
        (parseRange R), body⟩, ?_, rfl, rfl⟩
    simp [parseObjectMetadata, alloc, GetResult.new, hm, hd]

/-- C4: whenever `objectNotFound()` holds of the `R2Result`, the outcome-checking
`parseObjectMetadata` returns the absent result and raises nothing, whatever the
action name, the error the result carries, its precondition flag, its payload,
the behaviour of `throwIfError` and of the codec, and the result shape are. -/
theorem objectNotFound_returns_absent
    (throwIfErr : String → R2Result → Except Failure Unit)
    (decode : String → Except Failure R2HeadResponse)
    (T : ResultT) (action : String) (r2Result : R2Result)
    (hnf : r2Result.objectNotFound = true) :
    parseObjectMetadataR2Result throwIfErr decode T action r2Result = .ok none := by
  simp [parseObjectMetadataR2Result, hnf]

/-- C4 at a concrete outcome: not found, yet also carrying an error, a failed
precondition and a payload, with a codec that can only fail. -/
theorem objectNotFound_returns_absent_witness :
    parseObjectMetadataR2Result throwIfError (fun _ => .error (.codec "bad json"))
      (.Get {}) "head"
      { objectNotFound := true, preconditionFailed := true,
        toThrow := some { v4Code := 10007, message := "not found" },
        metadataPayload := some "x" } = .ok none :=
  objectNotFound_returns_absent throwIfError (fun _ => .error (.codec "bad json"))
    (.Get {}) "head"
    { objectNotFound := true, preconditionFailed := true,
      toThrow := some { v4Code := 10007, message := "not found" },
      metadataPayload := some "x" } rfl

/-- C6: for every `R2Result` that is neither "not found" nor a failed
precondition and on which `throwIfError` raises a failure for the given action
name, the outcome-checking `parseObjectMetadata` fails with exactly that failure
and produces no result, whatever the payload, the codec and the result shape are
(so neither the codec nor the generic parser has any say). -/
theorem backend_error_propagates
    (throwIfErr : String → R2Result → Except Failure Unit)
    (decode : String → Except Failure R2HeadResponse)
    (T : ResultT) (action : String) (r2Result : R2Result) (f : Failure)
    (hnf : r2Result.objectNotFound = false)
    (hpf : r2Result.preconditionFailed = false)
    (herr : throwIfErr action r2Result = .error f) :
    parseObjectMetadataR2Result throwIfErr decode T action r2Result = .error f := by
  simp [parseObjectMetadataR2Result, hnf, hpf, herr]

/-- C6 at a concrete outcome: an error carried by the result, with a payload that
would decode, ends in the typed failure with the action name attached. -/
theorem backend_error_propagates_witness :
    parseObjectMetadataR2Result throwIfError (fun _ => .ok {}) .Head "put"
      { toThrow := some { v4Code := 10001, message := "internal error" },
        metadataPayload := some "p" }
      = .error (.r2Error "put" { v4Code := 10001, message := "internal error" }) :=
  backend_error_propagates throwIfError (fun _ => .ok {}) .Head "put"
    { toThrow := some { v4Code := 10001, message := "internal error" },
      metadataPayload := some "p" }
    (.r2Error "put" { v4Code := 10001, message := "internal error" }) rfl rfl rfl

/-- C7: on the path of the outcome-checking `parseObjectMetadata` that builds a
result (not "not found", no error raised, a payload that decodes to `R`, with or
without metadata blocks), the call returns a present result, of the shape asked
for, equal to what the generic parser gives with `Http` and `Custom` expected,
and with both `httpMetadata` and `customMetadata` present. Moreover every result
the overload returns, on any `R2Result`, has both; the overload ends in the
non-null assertion of the `GetResult` constructor only if `throwIfError` or the
codec raised that very failure; and the generic parser with `Http` and `Custom`
expected builds a `GetResult` for every wire response. -/
theorem checked_result_has_both_metadata
    (throwIfErr : String → R2Result → Except Failure Unit)
    (decode : String → Except Failure R2HeadResponse)
    (T : ResultT) (action : String) (r2Result : R2Result)
    (payload : String) (R : R2HeadResponse)
    (hnf : r2Result.objectNotFound = false)
    (hok : r2Result.preconditionFailed = true ∨ throwIfErr action r2Result = .ok ())
    (hpl : r2Result.metadataPayload = some payload)
    (hdec : decode payload = .ok R) :
    (∃ ref : ObjectRef,
      parseObjectMetadataR2Result throwIfErr decode T action r2Result = .ok (some ref) ∧
      parseObjectMetadata T R [OptionalMetadata.Http, OptionalMetadata.Custom] = .ok ref ∧
      ref.toHead.httpMetadata.isSome = true ∧ ref.toHead.customMetadata.isSome = true ∧
      (∀ body : ReadableStream, T = .Get body → ∃ g : GetResult, ref = .get g ∧ g.body = body)) ∧
    (∀ (r : R2Result) (ref : ObjectRef),
      parseObjectMetadataR2Result throwIfErr decode T action r = .ok (some ref) →
      ref.toHead.httpMetadata.isSome = true ∧ ref.toHead.customMetadata.isSome = true) ∧
    (∀ r : R2Result,
      parseObjectMetadataR2Result throwIfErr decode T action r
        = .error (.assertNonNull .getResultMetadata) →
      throwIfErr action r = .error (.assertNonNull .getResultMetadata) ∨
      ∃ p : String, r.metadataPayload = some p ∧
        decode p = .error (.assertNonNull .getResultMetadata)) ∧
    (∀ (body : ReadableStream) (R1 : R2HeadResponse), ∃ g : GetResult,
      parseObjectMetadata (.Get body) R1 [OptionalMetadata.Http, OptionalMetadata.Custom]
        = .ok (.get g) ∧
      g.httpMetadata.isSome = true ∧ g.customMetadata.isSome = true) := by
  have hget : ∀ (body : ReadableStream) (R1 : R2HeadResponse), ∃ g : GetResult,
      parseObjectMetadata (.Get body) R1 [OptionalMetadata.Http, OptionalMetadata.Custom]
        = .ok (.get g) ∧
      g.httpMetadata.isSome = true ∧ g.customMetadata.isSome = true ∧ g.body = body := by
    intro body R1
    have hh : ∃ m, parseHttpMetadata R1 [OptionalMetadata.Http, OptionalMetadata.Custom]
        = some m := by
      cases hb : R1.httpFields with
      | none => exact ⟨{}, by simp [parseHttpMetadata_absent _ hb]⟩
      | some hf => exact ⟨_, parseHttpMetadata_present _ hb⟩
    have hc : ∃ d, parseCustomMetadata R1 [OptionalMetadata.Http, OptionalMetadata.Custom]
        = some d := by
      cases hb : R1.customFields with
      | none => exact ⟨{}, by simp [parseCustomMetadata_absent _ hb]⟩
      | some cf => exact ⟨_, parseCustomMetadata_present _ hb⟩
    obtain ⟨m, hm⟩ := hh
    obtain ⟨d, hd⟩ := hc
    refine ⟨⟨HeadResult.new R1.name R1.version (u64ToDouble R1.size) R1.etag
        (parseChecksums R1) (dateFromMillis R1.uploadedMillisecondsSinceEpoch) (some m) (some d)
        (parseRange R1), body⟩, ?_, rfl, rfl, rfl⟩
    simp [parseObjectMetadata, alloc, GetResult.new, hm, hd]
  refine ⟨?_, ?_, ?_, ?_⟩
  · obtain ⟨ref, hp, h1, h2⟩ := parseObjectMetadata_both_expected T R
    have hover : parseObjectMetadataR2Result throwIfErr decode T action r2Result
        = .ok (some ref) := by
      rcases hok with hpf | hte
      · simp [parseObjectMetadataR2Result, hnf, hpf, hpl, hdec, hp]
      · cases hpf : r2Result.preconditionFailed <;>
          simp [parseObjectMetadataR2Result, hnf, hpf, hte, hpl, hdec, hp]
    refine ⟨ref, hover, hp, h1, h2, ?_⟩
    intro body hT
    subst hT
    obtain ⟨g, hg, -, -, hb⟩ := hget body R
    rw [hg] at hp
    cases hp
    exact ⟨g, rfl, hb⟩
  · intro r ref h
    simp only [parseObjectMetadataR2Result] at h
    split at h
    · cases h
    · split at h
      · cases h
      · split at h
        · cases h
        · split at h
          · cases h
          · rename_i R1 hdec1
            obtain ⟨ref2, hp, h1, h2⟩ := parseObjectMetadata_both_expected T R1
            simp only [hp] at h
            cases h
            exact ⟨h1, h2⟩
  · intro r h
    simp only [parseObjectMetadataR2Result] at h
    split at h
    · cases h
    · split at h
      · rename_i f hf
        cases h
        left
        cases hpf : r.preconditionFailed
        · simpa [hpf] using hf
        · simp [hpf] at hf
      · split at h
        · cases h
        · rename_i p hp1
          split at h
          · rename_i f hf
            cases h
            exact Or.inr ⟨p, hp1, hf⟩
          · rename_i R1 hdec1
            obtain ⟨ref2, hp, -, -⟩ := parseObjectMetadata_both_expected T R1
            simp only [hp] at h
            cases h
  · intro body R1
    obtain ⟨g, hg, h1, h2, -⟩ := hget body R1
    exact ⟨g, hg, h1, h2⟩

/-- C7 at a concrete outcome: a successful RPC of a "put" whose payload decodes to
a response with neither metadata block, parsed into a `GetResult`. -/
theorem checked_result_has_both_metadata_witness :
    parseObjectMetadataR2Result throwIfError (fun _ => .ok { name := "k", etag := "abc" })
      (.Get {}) "put" { metadataPayload := some "p" }
      = .ok (some (.get ⟨HeadResult.new "k" "" 0 "abc" {} (dateFromMillis 0) (some {}) (some {})
          none, {}⟩)) ∧
    ∃ ref : ObjectRef,
      parseObjectMetadataR2Result throwIfError (fun _ => .ok { name := "k", etag := "abc" })
        (.Get {}) "put" { metadataPayload := some "p" } = .ok (some ref) ∧
      parseObjectMetadata (.Get {}) { name := "k", etag := "abc" }
        [OptionalMetadata.Http, OptionalMetadata.Custom] = .ok ref ∧
      ref.toHead.httpMetadata.isSome = true ∧ ref.toHead.customMetadata.isSome = true ∧
      (∀ body : ReadableStream, ResultT.Get {} = .Get body →
        ∃ g : GetResult, ref = .get g ∧ g.body = body) :=
  ⟨rfl, (checked_result_has_both_metadata throwIfError
    (fun _ => .ok { name := "k", etag := "abc" }) (.Get {}) "put" { metadataPayload := some "p" }
    "p" { name := "k", etag := "abc" } rfl (Or.inr rfl) rfl rfl).1⟩

/-- C8, as stated, fails: with an empty list of expected categories, a wire
response that has an `httpFields` block and a `customFields` block still gives a
result with both `httpMetadata` and `customMetadata`. -/
theorem empty_expected_still_returns_present_blocks :
    ∃ h : HeadResult,
      parseObjectMetadata .Head
        { name := "k",
          httpFields := some { contentType := some "text/plain" },
          customFields := some [{ k := "a", v := "1" }] } [] = .ok (.head h) ∧
      h.httpMetadata = some { contentType := some "text/plain" } ∧
      h.customMetadata = some { fields := [{ name := "a", value := "1" }] } ∧
      ¬ (h.httpMetadata = none ∧ h.customMetadata = none) := by
  refine ⟨_, rfl, rfl, rfl, ?_⟩
  rintro ⟨h1, -⟩
  cases h1

/-- C8 (amended): with an empty list of expected categories nothing is made up
for a block the wire response lacks: for every wire response the result's
`httpMetadata` is absent exactly when the response has no `httpFields` block, and
its `customMetadata` is absent exactly when the response has no `customFields`
block (a block that is on the wire is still returned). -/
theorem empty_expected_returns_wire_blocks_only (R : R2HeadResponse) :
    ∃ h : HeadResult, parseObjectMetadata .Head R [] = .ok (.head h) ∧
      (h.httpMetadata = none ↔ R.httpFields = none) ∧
      (h.customMetadata = none ↔ R.customFields = none) := by
  refine ⟨_, parseObjectMetadata_Head R [], ?_, ?_⟩
  · cases hb : R.httpFields with
    | none => simp [HeadResult.new, parseHttpMetadata_absent [] hb]
    | some hf => simp [HeadResult.new, parseHttpMetadata_present [] hb]
  · cases hb : R.customFields with
    | none => simp [HeadResult.new, parseCustomMetadata_absent [] hb]
    | some cf => simp [HeadResult.new, parseCustomMetadata_present [] hb]

/-! ## Checksums (C9) -/

/-- The checksum block is a field-by-field copy of the wire block, and empty
without one. -/
theorem parseChecksums_eq (R : R2HeadResponse) :
    parseChecksums R =
      match R.checksums with
      | some c =>
        { md5 := c.md5, sha1 := c.sha1, sha256 := c.sha256, sha384 := c.sha384,
          sha512 := c.sha512 }
      | none => {} := by
  cases hc : R.checksums with
  | none => simp [parseChecksums, hc]
  | some c =>
    obtain ⟨a, b, c3, d, e⟩ := c
    simp only [parseChecksums, hc]
    cases a <;> cases b <;> cases c3 <;> cases d <;> cases e <;> rfl

/-- C9: for every wire response and every list of expected categories, each of
the five digests of the result is present with bytes `b` exactly when the
response has a checksums block holding that digest with bytes `b`; without a
checksums block all five are absent; and a block holding only a SHA-256 digest
gives a result with `sha256` present and the four others absent. A result of the
other shape, when one is returned, has the same `HeadResult` part. -/
theorem checksums_copied_independently (R : R2HeadResponse) (E : List OptionalMetadata) :
    ∃ h : HeadResult, parseObjectMetadata .Head R E = .ok (.head h) ∧
      (∀ b, h.checksums.md5 = some b ↔ ∃ c, R.checksums = some c ∧ c.md5 = some b) ∧
      (∀ b, h.checksums.sha1 = some b ↔ ∃ c, R.checksums = some c ∧ c.sha1 = some b) ∧
      (∀ b, h.checksums.sha256 = some b ↔ ∃ c, R.checksums = some c ∧ c.sha256 = some b) ∧
      (∀ b, h.checksums.sha384 = some b ↔ ∃ c, R.checksums = some c ∧ c.sha384 = some b) ∧
      (∀ b, h.checksums.sha512 = some b ↔ ∃ c, R.checksums = some c ∧ c.sha512 = some b) ∧
      (R.checksums = none →
        h.checksums.md5 = none ∧ h.checksums.sha1 = none ∧ h.checksums.sha256 = none ∧
        h.checksums.sha384 = none ∧ h.checksums.sha512 = none) ∧
      (∀ b, R.checksums = some { sha256 := some b } →
        h.checksums.sha256 = some b ∧ h.checksums.md5 = none ∧ h.checksums.sha1 = none ∧
        h.checksums.sha384 = none ∧ h.checksums.sha512 = none) ∧
      (∀ (T : ResultT) (ref : ObjectRef), parseObjectMetadata T R E = .ok ref →
        ref.toHead = h) := by
  refine ⟨_, parseObjectMetadata_Head R E, ?_⟩
  refine ⟨?_, ?_, ?_, ?_, ?_, ?_, ?_, fun T ref hp => parseObjectMetadata_toHead hp⟩ <;>
    simp only [HeadResult.new, parseChecksums_eq] <;>
    cases hc : R.checksums <;> simp
  intro b hb
  subst hb
  simp

/-! ## The quoted etag (C10) -/

/-- C10: for every `HeadResult`, `getHttpEtag` is the double-quote character, then
the stored etag unchanged, then the double-quote character, so that its length
is the etag's length plus two, while `getEtag` is the stored etag itself; for
the etag `abc123` the quoted form is the 8-character string `"abc123"`. -/
theorem getHttpEtag_quotes_etag (h : HeadResult) :
    h.getHttpEtag.data = '"' :: (h.etag.data ++ ['"']) ∧
    h.getHttpEtag.length = h.etag.length + 2 ∧
    h.getEtag = h.etag ∧
    (h.etag = "abc123" →
      h.getHttpEtag = "\"abc123\"" ∧
      h.getHttpEtag.data = ['"', 'a', 'b', 'c', '1', '2', '3', '"'] ∧
      h.getHttpEtag.length = 8) := by
  have hd : h.getHttpEtag.data = '"' :: (h.etag.data ++ ['"']) := by
    simp [HeadResult.getHttpEtag, String.singleton]
  refine ⟨hd, ?_, rfl, ?_⟩
  · show h.getHttpEtag.data.length = h.etag.data.length + 2
    rw [hd]
    simp
  · intro he
    refine ⟨?_, ?_, ?_⟩
    · rw [HeadResult.getHttpEtag, he]
      rfl
    · rw [hd, he]
      rfl
    · show h.getHttpEtag.data.length = 8
      rw [hd, he]
      rfl

/-! ## Custom metadata, range, timestamps (C11, C12, C13) -/

/-- C11: when the wire response has a `customFields` block, then for every list
of expected categories the result has a `customMetadata` that is the
entry-by-entry copy of the block: as many entries, and at every position the
name and the value are the key and the value of the wire entry at that
position, so that the wire order is kept and entries with equal keys are
neither merged nor dropped. A result of the other shape, when one is returned,
has the same `HeadResult` part. -/
theorem custom_fields_copied_in_order (R : R2HeadResponse) (E : List OptionalMetadata)
    (cf : List Record) (hb : R.customFields = some cf) :
    ∃ (h : HeadResult) (d : Dict),
      parseObjectMetadata .Head R E = .ok (.head h) ∧ h.customMetadata = some d ∧
      d.fields.length = cf.length ∧
      (∀ i : Nat, d.fields[i]? = cf[i]?.map fun field => { name := field.k, value := field.v }) ∧
      d.fields.map (fun f => f.name) = cf.map (fun field => field.k) ∧
      d.fields.map (fun f => f.value) = cf.map (fun field => field.v) ∧
      (∀ (T : ResultT) (ref : ObjectRef), parseObjectMetadata T R E = .ok ref →
        ref.toHead = h) := by
  refine ⟨_, _, parseObjectMetadata_Head R E, parseCustomMetadata_present E hb, ?_, ?_, ?_, ?_,
    fun T ref hp => parseObjectMetadata_toHead hp⟩
  · simp
  · intro i
    simp
  · simp [List.map_map, Function.comp_def]
  · simp [List.map_map, Function.comp_def]

/-- C11 at a concrete response: three entries, two of them under the same key,
parsed with no expected category. -/
theorem custom_fields_copied_in_order_witness :
    ∃ (h : HeadResult) (d : Dict),
      parseObjectMetadata .Head
        { name := "k",
          customFields := some [{ k := "b", v := "1" }, { k := "a", v := "2" },
                                { k := "b", v := "3" }] }
        [] = .ok (.head h) ∧ h.customMetadata = some d ∧
      d.fields.length = [({ k := "b", v := "1" } : Record), { k := "a", v := "2" },
                         { k := "b", v := "3" }].length ∧
      (∀ i : Nat, d.fields[i]? =
        [({ k := "b", v := "1" } : Record), { k := "a", v := "2" }, { k := "b", v := "3" }][i]?.map
          fun field => { name := field.k, value := field.v }) ∧
      d.fields.map (fun f => f.name) =
        [({ k := "b", v := "1" } : Record), { k := "a", v := "2" }, { k := "b", v := "3" }].map
          (fun field => field.k) ∧
      d.fields.map (fun f => f.value) =
        [({ k := "b", v := "1" } : Record), { k := "a", v := "2" }, { k := "b", v := "3" }].map
          (fun field => field.v) ∧
      (∀ (T : ResultT) (ref : ObjectRef),
        parseObjectMetadata T
          { name := "k",
            customFields := some [{ k := "b", v := "1" }, { k := "a", v := "2" },
                                  { k := "b", v := "3" }] }
          [] = .ok ref →
        ref.toHead = h) :=
  custom_fields_copied_in_order
    { name := "k",
      customFields := some [{ k := "b", v := "1" }, { k := "a", v := "2" },
                            { k := "b", v := "3" }] }
    [] [{ k := "b", v := "1" }, { k := "a", v := "2" }, { k := "b", v := "3" }] rfl

/-- Up to `2 ^ 53` the conversion to `double` changes nothing. -/
theorem u64ToDouble_exact {n : Nat} (h : n ≤ 2 ^ 53) : u64ToDouble n = n := by
  rcases Nat.lt_or_eq_of_le h with hlt | heq
  · unfold u64ToDouble
    rw [if_pos hlt]
  · subst heq
    decide

/-- The range block is present exactly when the wire record has one. -/
theorem parseRange_eq (R : R2HeadResponse) :
    parseRange R = R.range.map fun rg =>
      { offset := some (u64ToDouble rg.offset), length := some (u64ToDouble rg.length),
        suffix := none } := by
  cases hr : R.range <;> simp [parseRange, hr]

/-- C12, as stated, fails: a wire range with offset `2 ^ 53 + 1` (and length
`2 ^ 53 + 3`) comes back with offset `2 ^ 53` (and length `2 ^ 53 + 4`), the
nearest values a `double` can hold, not with the wire values. -/
theorem range_offset_rounded_to_double :
    ∃ h : HeadResult,
      parseObjectMetadata .Head
        { name := "k", range := some { offset := 9007199254740993, length := 9007199254740995 } }
        [] = .ok (.head h) ∧
      h.range = some { offset := some 9007199254740992, length := some 9007199254740996,
                       suffix := none } ∧
      h.range ≠ some { offset := some 9007199254740993, length := some 9007199254740995,
                       suffix := none } := by
  refine ⟨_, rfl, by decide, by decide⟩

/-- C12 (amended): for every wire response and every list of expected categories
the result has a range exactly when the response has a range block; when it
has, the offset and the length are present and are the wire offset and length
converted to `double` (the wire values themselves whenever these are at most
`2 ^ 53`), and the suffix is absent. A result of the other shape, when one is
returned, has the same `HeadResult` part. -/
theorem range_reconstructed_as_doubles (R : R2HeadResponse) (E : List OptionalMetadata) :
    ∃ h : HeadResult, parseObjectMetadata .Head R E = .ok (.head h) ∧
      (h.range.isSome = true ↔ R.range.isSome = true) ∧
      (∀ rg : R2Range, R.range = some rg →
        h.range = some { offset := some (u64ToDouble rg.offset),
                         length := some (u64ToDouble rg.length), suffix := none } ∧
        (rg.offset ≤ 2 ^ 53 → u64ToDouble rg.offset = rg.offset) ∧
        (rg.length ≤ 2 ^ 53 → u64ToDouble rg.length = rg.length)) ∧
      (∀ (T : ResultT) (ref : ObjectRef), parseObjectMetadata T R E = .ok ref →
        ref.toHead = h) := by
  refine ⟨_, parseObjectMetadata_Head R E, ?_, ?_,
    fun T ref hp => parseObjectMetadata_toHead hp⟩
  · simp only [HeadResult.new, parseRange_eq]
    cases R.range <;> simp
  · intro rg hr
    refine ⟨?_, u64ToDouble_exact, u64ToDouble_exact⟩
    simp [HeadResult.new, parseRange_eq, hr]

/-- A count of milliseconds whose count of nanoseconds fits `int64_t` is
converted exactly. -/
theorem dateFromMillis_exact {ms : Nat} (h : ms * 1000000 < 2 ^ 63) :
    (dateFromMillis ms).nanos = UNIX_EPOCH.nanos + (ms : Int) * 1000000 := by
  have h1 : ms * 1000000 % 2 ^ 64 = ms * 1000000 := Nat.mod_eq_of_lt (by omega)
  simp only [dateFromMillis, MILLISECONDS, toInt64, UNIX_EPOCH, h1, Nat.mod_mod]
  rw [if_pos h]
  push_cast
  ring

/-- C13, as stated, fails: `9223372036855` milliseconds make more nanoseconds than
the signed 64-bit count of a `kj::Date` holds; the uploaded timestamp and the
cache expiry of such a response lie before the epoch, not that many milliseconds
after it. -/
theorem large_millis_wrap_around :
    ∃ (h : HeadResult) (m : HttpMetadata),
      parseObjectMetadata .Head
        { name := "k", uploadedMillisecondsSinceEpoch := 9223372036855,
          httpFields := some { cacheExpiry := 9223372036855 } }
        [] = .ok (.head h) ∧
      h.httpMetadata = some m ∧
      h.uploaded.nanos = -9223372036854551616 ∧
      m.cacheExpiry = some ⟨-9223372036854551616⟩ ∧
      h.uploaded.nanos ≠ UNIX_EPOCH.nanos + 9223372036855 * 1000000 := by
  refine ⟨_, _, rfl, rfl, by decide, by decide, by decide⟩

/-- C13 (amended): the conversion from milliseconds is exact whenever the count
of nanoseconds fits the signed 64-bit count of a timestamp, that is for every
wire value up to `9223372036854` milliseconds: the uploaded timestamp of the
result then lies exactly that many milliseconds after the Unix epoch, and so
does the `cacheExpiry` for every such wire cache expiry. -/
theorem millis_exact_within_int64 (R : R2HeadResponse) (E : List OptionalMetadata) :
    ∃ h : HeadResult, parseObjectMetadata .Head R E = .ok (.head h) ∧
      (R.uploadedMillisecondsSinceEpoch ≤ 9223372036854 →
        h.uploaded.nanos =
          UNIX_EPOCH.nanos + (R.uploadedMillisecondsSinceEpoch : Int) * 1000000) ∧
      (∀ hf : R2HttpFields, R.httpFields = some hf → hf.cacheExpiry ≤ 9223372036854 →
        ∃ (m : HttpMetadata) (d : Date), h.httpMetadata = some m ∧ m.cacheExpiry = some d ∧
          d.nanos = UNIX_EPOCH.nanos + (hf.cacheExpiry : Int) * 1000000) := by
  refine ⟨_, parseObjectMetadata_Head R E, ?_, ?_⟩
  · intro hm
    exact dateFromMillis_exact (by omega)
  · intro hf hb hc
    have hne : hf.cacheExpiry ≠ 0xffffffffffffffff := by omega
    refine ⟨_, dateFromMillis hf.cacheExpiry, parseHttpMetadata_present E hb, ?_,
      dateFromMillis_exact (by omega)⟩
    simp [hne]

/-! ## Single consumption of the body (C14) -/

/-- On an instance whose body has been used every accessor fails. -/
theorem call_used_fails {g : GetResult} (h : g.getBodyUsed = true) (a : BodyAccessor) :
    g.call a = .error .bodyUsed := by
  have hd : g.body.disturbed = true := h
  cases a <;>
    simp [GetResult.call, GetResult.arrayBuffer, GetResult.text, GetResult.json,
      GetResult.blob, GetResult.readBody, ReadableStream.readAll, hd]

/-- On an instance whose body has not been used every accessor succeeds, hands
out the bytes of the body, and leaves the body used. -/
theorem call_fresh_succeeds {g : GetResult} (h : g.getBodyUsed = false) (a : BodyAccessor) :
    g.call a = .ok ({ form := a, bytes := g.body.data },
      { g with body := { data := [], disturbed := true } }) := by
  have hd : g.body.disturbed = false := h
  cases a <;>
    simp [GetResult.call, GetResult.arrayBuffer, GetResult.text, GetResult.json,
      GetResult.blob, GetResult.readBody, ReadableStream.readAll, hd]

/-- On an instance whose body has been used, no call of a sequence succeeds and
the instance stays as it is. -/
theorem callAll_used {g : GetResult} (h : g.getBodyUsed = true) (calls : List BodyAccessor) :
    g.callAll calls = (List.replicate calls.length false, g) := by
  induction calls with
  | nil => rfl
  | cons a rest ih =>
    simp [GetResult.callAll, call_used_fails h a, ih, List.replicate_succ]

/-- A read through the reference of `getBody` leaves the instance used. -/
theorem readThroughBody_uses {g g1 : GetResult} {bytes : Bytes}
    (h : g.readThroughBody = .ok (bytes, g1)) : g1.getBodyUsed = true := by
  simp only [GetResult.readThroughBody, GetResult.getBody, ReadableStream.readAll] at h
  split at h
  · cases h
  · rename_i b s hs
    split at hs
    · cases hs
    · cases hs
      cases h
      rfl

/-- In any sequence of accessor calls on one instance at most one succeeds. -/
theorem callAll_count_le_one (g : GetResult) (calls : List BodyAccessor) :
    (g.callAll calls).1.count true ≤ 1 := by
  cases hu : g.getBodyUsed with
  | true => simp [callAll_used hu, List.count_replicate]
  | false =>
    cases calls with
    | nil => simp [GetResult.callAll]
    | cons a rest =>
      have hu1 : ({ g with body := { data := [], disturbed := true } } : GetResult).getBodyUsed
          = true := rfl
      simp [GetResult.callAll, call_fresh_succeeds hu a, callAll_used hu1, List.count_replicate]

/-- C14, as stated, fails: a `GetResult` built by the parser on a body stream
that has been read has `getBodyUsed` true before any accessor is called, and its
first accessor call fails; and on a `GetResult` with an unread body, a read
through the reference that `getBody` hands out makes the first accessor call
fail as well. -/
theorem first_accessor_call_can_fail :
    (∃ g : GetResult,
      parseObjectMetadata (.Get { data := [104, 105], disturbed := true }) { name := "k" }
        [OptionalMetadata.Http, OptionalMetadata.Custom] = .ok (.get g) ∧
      g.getBodyUsed = true ∧
      g.text = .error .bodyUsed ∧
      ¬ ∃ (v : BodyValue) (g1 : GetResult), g.call .text = .ok (v, g1)) ∧
    (∃ g g1 : GetResult,
      parseObjectMetadata (.Get { data := [104, 105], disturbed := false }) { name := "k" }
        [OptionalMetadata.Http, OptionalMetadata.Custom] = .ok (.get g) ∧
      g.getBodyUsed = false ∧
      g.readThroughBody = .ok ([104, 105], g1) ∧
      g1.getBodyUsed = true ∧
      g1.text = .error .bodyUsed) := by
  refine ⟨⟨_, rfl, rfl, rfl, ?_⟩, ⟨_, _, rfl, rfl, rfl, rfl, rfl⟩⟩
  rintro ⟨v, g1, h⟩
  cases h

/-- C14 (amended): on every `GetResult` the four body accessors consume the body
at most once. When `getBodyUsed` is false, a call of any of `arrayBuffer`,
`text`, `json`, `blob` succeeds, hands out the bytes of the body and leaves
`getBodyUsed` true, and every call of any of the four after it, on the same
instance, fails reporting the body as used. When `getBodyUsed` is true already
(the instance was built on a stream that had been read, or the stream was read
through the reference `getBody` hands out), every call fails that way, the first
included. In any sequence of calls at most one succeeds. -/
theorem body_is_consumed_at_most_once (g : GetResult)
    (first : BodyAccessor) (later : List BodyAccessor) :
    (g.getBodyUsed = false →
      ∃ (v : BodyValue) (g1 : GetResult),
        g.call first = .ok (v, g1) ∧ v.bytes = g.body.data ∧
        g1.getBodyUsed = true ∧
        (∀ a : BodyAccessor, g1.call a = .error .bodyUsed) ∧
        g.callAll (first :: later) = (true :: List.replicate later.length false, g1)) ∧
    (g.getBodyUsed = true →
      g.call first = .error .bodyUsed ∧
      g.callAll (first :: later) = (false :: List.replicate later.length false, g)) ∧
    ((∃ (v : BodyValue) (g1 : GetResult), g.call first = .ok (v, g1)) ↔
      g.getBodyUsed = false) ∧
    (g.callAll (first :: later)).1.count true ≤ 1 ∧
    (∀ (bytes : Bytes) (g1 : GetResult), g.readThroughBody = .ok (bytes, g1) →
      g1.getBodyUsed = true ∧ ∀ a : BodyAccessor, g1.call a = .error .bodyUsed) := by
  have hu : ({ g with body := { data := [], disturbed := true } } : GetResult).getBodyUsed
      = true := rfl
  refine ⟨?_, ?_, ?_, callAll_count_le_one g (first :: later), ?_⟩
  · intro hfresh
    refine ⟨_, _, call_fresh_succeeds hfresh first, rfl, hu, fun a => call_used_fails hu a, ?_⟩
    simp [GetResult.callAll, call_fresh_succeeds hfresh first, callAll_used hu]
  · intro hused
    refine ⟨call_used_fails hused first, ?_⟩
    simpa [List.replicate_succ] using callAll_used hused (first :: later)
  · constructor
    · rintro ⟨v, g1, h⟩
      cases hb : g.getBodyUsed with
      | false => rfl
      | true =>
        rw [call_used_fails hb first] at h
        cases h
    · intro hfresh
      exact ⟨_, _, call_fresh_succeeds hfresh first⟩
  · intro bytes g1 h
    have h1 := readThroughBody_uses h
    exact ⟨h1, fun a => call_used_fails h1 a⟩

/-- C14 (amended) at a concrete instance with an unread two-byte body: read as
text, then asked for again as text, as JSON and as raw bytes. -/
theorem body_is_consumed_at_most_once_witness :
    GetResult.getBodyUsed
      ⟨HeadResult.new "k" "v" 2 "abc" {} (dateFromMillis 0) (some {}) (some {}) none,
        { data := [104, 105] }⟩ = false ∧
    ∃ (v : BodyValue) (g1 : GetResult),
      GetResult.call
        ⟨HeadResult.new "k" "v" 2 "abc" {} (dateFromMillis 0) (some {}) (some {}) none,
          { data := [104, 105] }⟩ .text = .ok (v, g1) ∧
      v.bytes = [104, 105] ∧
      g1.getBodyUsed = true ∧
      (∀ a : BodyAccessor, g1.call a = .error .bodyUsed) ∧
      GetResult.callAll
        ⟨HeadResult.new "k" "v" 2 "abc" {} (dateFromMillis 0) (some {}) (some {}) none,
          { data := [104, 105] }⟩ [.text, .text, .json, .arrayBuffer]
        = ([true, false, false, false], g1) :=
  ⟨rfl, (body_is_consumed_at_most_once
    ⟨HeadResult.new "k" "v" 2 "abc" {} (dateFromMillis 0) (some {}) (some {}) none,
      { data := [104, 105] }⟩ .text [.text, .json, .arrayBuffer]).1 rfl⟩

/-! ## Partiality of the `GetResult` shape (C15) -/

/-- C15: for every wire response, list of expected categories and body, the
generic parser returns a `GetResult` exactly when the response has an
`httpFields` block or `Http` is expected, and it has a `customFields` block or
`Custom` is expected; otherwise the call ends in the failed non-null assertion
of the `GetResult` constructor; the `HeadResult` shape returns in every case. -/
theorem GetResult_shape_needs_both_blocks (R : R2HeadResponse) (E : List OptionalMetadata)
    (body : ReadableStream) :
    ((∃ g : GetResult, parseObjectMetadata (.Get body) R E = .ok (.get g)) ↔
      (R.httpFields.isSome = true ∨ OptionalMetadata.Http ∈ E) ∧
      (R.customFields.isSome = true ∨ OptionalMetadata.Custom ∈ E)) ∧
    (¬ ((R.httpFields.isSome = true ∨ OptionalMetadata.Http ∈ E) ∧
        (R.customFields.isSome = true ∨ OptionalMetadata.Custom ∈ E)) →
      parseObjectMetadata (.Get body) R E = .error (.assertNonNull .getResultMetadata)) ∧
    (∃ h : HeadResult, parseObjectMetadata .Head R E = .ok (.head h)) := by
  have hh : (parseHttpMetadata R E).isSome = true ↔
      (R.httpFields.isSome = true ∨ OptionalMetadata.Http ∈ E) := by
    cases hb : R.httpFields with
    | none => by_cases hm : OptionalMetadata.Http ∈ E <;> simp [parseHttpMetadata_absent E hb, hm]
    | some hf => simp [parseHttpMetadata_present E hb]
  have hc : (parseCustomMetadata R E).isSome = true ↔
      (R.customFields.isSome = true ∨ OptionalMetadata.Custom ∈ E) := by
    cases hb : R.customFields with
    | none =>
      by_cases hm : OptionalMetadata.Custom ∈ E <;> simp [parseCustomMetadata_absent E hb, hm]
    | some cf => simp [parseCustomMetadata_present E hb]
  rw [← hh, ← hc]
  refine ⟨?_, ?_, _, parseObjectMetadata_Head R E⟩
  · cases h1 : parseHttpMetadata R E <;> cases h2 : parseCustomMetadata R E <;>
      simp [parseObjectMetadata, alloc, GetResult.new, h1, h2]
  · cases h1 : parseHttpMetadata R E <;> cases h2 : parseCustomMetadata R E <;>
      simp [parseObjectMetadata, alloc, GetResult.new, h1, h2]

/-! ## A missing payload (C16) -/

/-- C16: when the outcome is not "not found" and no error is raised (the
precondition failed, or `throwIfError` returns normally) but the `R2Result` has
no metadata payload, the outcome-checking `parseObjectMetadata` ends in the
failed non-null assertion on the payload, for every codec and result shape, and
does not return an absent result; and whenever the call, on any `R2Result`,
returns a present result, that `R2Result` has a payload. -/
theorem missing_payload_asserts
    (throwIfErr : String → R2Result → Except Failure Unit)
    (decode : String → Except Failure R2HeadResponse)
    (T : ResultT) (action : String) (r2Result : R2Result)
    (hnf : r2Result.objectNotFound = false)
    (hok : r2Result.preconditionFailed = true ∨ throwIfErr action r2Result = .ok ())
    (hpl : r2Result.metadataPayload = none) :
    parseObjectMetadataR2Result throwIfErr decode T action r2Result
      = .error (.assertNonNull .metadataPayload) ∧
    parseObjectMetadataR2Result throwIfErr decode T action r2Result ≠ .ok none ∧
    ∀ (r : R2Result) (ref : ObjectRef),
      parseObjectMetadataR2Result throwIfErr decode T action r = .ok (some ref) →
      r.metadataPayload.isSome = true := by
  have hmain : parseObjectMetadataR2Result throwIfErr decode T action r2Result
      = .error (.assertNonNull .metadataPayload) := by
    rcases hok with hpf | hte
    · simp [parseObjectMetadataR2Result, hnf, hpf, hpl]
    · cases hpf : r2Result.preconditionFailed <;>
        simp [parseObjectMetadataR2Result, hnf, hpf, hte, hpl]
  refine ⟨hmain, ?_, ?_⟩
  · rw [hmain]
    intro h
    cases h
  · intro r ref h
    cases hp : r.metadataPayload with
    | some p => rfl
    | none =>
      exfalso
      simp only [parseObjectMetadataR2Result, hp] at h
      split at h
      · cases h
      · split at h <;> cases h

/-- C16 at two concrete outcomes in one: the precondition failed (and, being a
success otherwise, `throwIfError` would return normally), no payload. -/
theorem missing_payload_asserts_witness :
    parseObjectMetadataR2Result throwIfError (fun _ => .ok {}) (.Get {}) "get"
      { preconditionFailed := true } = .error (.assertNonNull .metadataPayload) ∧
    parseObjectMetadataR2Result throwIfError (fun _ => .ok {}) (.Get {}) "get"
      { preconditionFailed := true } ≠ .ok none ∧
    ∀ (r : R2Result) (ref : ObjectRef),
      parseObjectMetadataR2Result throwIfError (fun _ => .ok {}) (.Get {}) "get" r
        = .ok (some ref) →
      r.metadataPayload.isSome = true :=
  missing_payload_asserts throwIfError (fun _ => .ok {}) (.Get {}) "get"
    { preconditionFailed := true } rfl (Or.inl rfl) rfl

/-! ## The expected categories as a set (C17, C18) -/

/-- C17: the generic parser looks at the list of expected categories only
through membership: two lists with the same members (whatever their order,
length and repetitions) give the same outcome for every wire response and
result shape; and enlarging the list never loses a metadata block: a block
the result has under a list it has, unchanged, under every list with at least
the same members. -/
theorem expected_fields_act_as_a_set (R : R2HeadResponse) (E1 E2 : List OptionalMetadata) :
    ((∀ c : OptionalMetadata, c ∈ E1 ↔ c ∈ E2) →
      ∀ T : ResultT, parseObjectMetadata T R E1 = parseObjectMetadata T R E2) ∧
    ((∀ c : OptionalMetadata, c ∈ E1 → c ∈ E2) →
      ∃ h1 h2 : HeadResult,
        parseObjectMetadata .Head R E1 = .ok (.head h1) ∧
        parseObjectMetadata .Head R E2 = .ok (.head h2) ∧
        (∀ m, h1.httpMetadata = some m → h2.httpMetadata = some m) ∧
        (∀ d, h1.customMetadata = some d → h2.customMetadata = some d)) ∧
    (∀ c : OptionalMetadata, ∃ h1 h2 : HeadResult,
        parseObjectMetadata .Head R E1 = .ok (.head h1) ∧
        parseObjectMetadata .Head R (c :: E1) = .ok (.head h2) ∧
        (h1.httpMetadata.isSome = true → h2.httpMetadata.isSome = true) ∧
        (h1.customMetadata.isSome = true → h2.customMetadata.isSome = true)) := by
  have mono : ∀ E E3 : List OptionalMetadata, (∀ c : OptionalMetadata, c ∈ E → c ∈ E3) →
      (∀ m, parseHttpMetadata R E = some m → parseHttpMetadata R E3 = some m) ∧
      (∀ d, parseCustomMetadata R E = some d → parseCustomMetadata R E3 = some d) := by
    intro E E3 hsub
    constructor
    · intro m hm
      cases hb : R.httpFields with
      | none =>
        rw [parseHttpMetadata_absent E hb] at hm
        rw [parseHttpMetadata_absent E3 hb]
        by_cases hin : OptionalMetadata.Http ∈ E
        · simpa [hin, hsub _ hin] using hm
        · simp [hin] at hm
      | some hf =>
        rw [parseHttpMetadata_present E hb] at hm
        rw [parseHttpMetadata_present E3 hb]
        exact hm
    · intro d hd
      cases hb : R.customFields with
      | none =>
        rw [parseCustomMetadata_absent E hb] at hd
        rw [parseCustomMetadata_absent E3 hb]
        by_cases hin : OptionalMetadata.Custom ∈ E
        · simpa [hin, hsub _ hin] using hd
        · simp [hin] at hd
      | some cf =>
        rw [parseCustomMetadata_present E hb] at hd
        rw [parseCustomMetadata_present E3 hb]
        exact hd
  refine ⟨?_, ?_, ?_⟩
  · intro hsame T
    have e1 : parseHttpMetadata R E1 = parseHttpMetadata R E2 := by
      cases hb : R.httpFields with
      | none => simp [parseHttpMetadata_absent _ hb, hsame]
      | some hf => rw [parseHttpMetadata_present E1 hb, parseHttpMetadata_present E2 hb]
    have e2 : parseCustomMetadata R E1 = parseCustomMetadata R E2 := by
      cases hb : R.customFields with
      | none => simp [parseCustomMetadata_absent _ hb, hsame]
      | some cf => rw [parseCustomMetadata_present E1 hb, parseCustomMetadata_present E2 hb]
    simp only [parseObjectMetadata, e1, e2]
  · intro hsub
    exact ⟨_, _, parseObjectMetadata_Head R E1, parseObjectMetadata_Head R E2,
      (mono E1 E2 hsub).1, (mono E1 E2 hsub).2⟩
  · intro c
    have hm := mono E1 (c :: E1) (fun x hx => List.mem_cons_of_mem c hx)
    refine ⟨_, _, parseObjectMetadata_Head R E1, parseObjectMetadata_Head R (c :: E1), ?_, ?_⟩
    · intro h
      obtain ⟨m, hm1⟩ := Option.isSome_iff_exists.mp h
      exact Option.isSome_iff_exists.mpr ⟨m, hm.1 m hm1⟩
    · intro h
      obtain ⟨d, hd1⟩ := Option.isSome_iff_exists.mp h
      exact Option.isSome_iff_exists.mpr ⟨d, hm.2 d hd1⟩

/-- C18: for every list of expected categories that has `Http`, a wire response
whose `httpFields` block is there with none of the five text fields and with the
cache expiry `0xffffffffffffffff` gives the same outcome, for either result
shape, as the same response without the block, with an `httpMetadata` that is
present and has all six sub-fields absent; and for every list that has `Custom`,
a `customFields` block with zero entries gives the same outcome as no block, with
a `customMetadata` that is present and has no entry. -/
theorem empty_block_same_as_requested_absent (R : R2HeadResponse)
    (E : List OptionalMetadata) :
    (OptionalMetadata.Http ∈ E →
      (∀ T : ResultT,
        parseObjectMetadata T
          { R with
            httpFields := some {
              contentType := none, contentDisposition := none, contentEncoding := none,
              contentLanguage := none, cacheControl := none,
              cacheExpiry := 0xffffffffffffffff } } E
        = parseObjectMetadata T { R with httpFields := none } E) ∧
      ∃ h : HeadResult,
        parseObjectMetadata .Head { R with httpFields := none } E = .ok (.head h) ∧
        h.httpMetadata = some
          { contentType := none, contentLanguage := none, contentDisposition := none,
            contentEncoding := none, cacheControl := none, cacheExpiry := none }) ∧
    (OptionalMetadata.Custom ∈ E →
      (∀ T : ResultT,
        parseObjectMetadata T { R with customFields := some [] } E
        = parseObjectMetadata T { R with customFields := none } E) ∧
      ∃ h : HeadResult,
        parseObjectMetadata .Head { R with customFields := none } E = .ok (.head h) ∧
        h.customMetadata = some { fields := [] }) := by
  constructor
  · intro hin
    have e : parseHttpMetadata { R with httpFields := none } E = some {} := by
      simp [parseHttpMetadata, hin]
    refine ⟨fun T => ?_, _, parseObjectMetadata_Head _ E, e⟩
    simp [parseObjectMetadata, parseHttpMetadata, parseCustomMetadata, parseRange,
      parseChecksums, hin]
  · intro hin
    have e : parseCustomMetadata { R with customFields := none } E = some {} := by
      simp [parseCustomMetadata, hin]
    refine ⟨fun T => ?_, _, parseObjectMetadata_Head _ E, e⟩
    simp [parseObjectMetadata, parseHttpMetadata, parseCustomMetadata, parseRange,
      parseChecksums, hin]

end PublicBeta
